import Mathlib

/-!
Shallow embedding of `script.py` (markdown link analyser): tag extraction,
tag filtering, the `[[...]]` link graph, degree ranking, selection under
count / percent / size constraints, and the export effects.  Scanning
functions that the Python regexes implement are embedded as fuel-indexed
structural recursions (fuel = input length, which always suffices since
every step consumes at least one character).
-/

/-- The backtick character (code-fence delimiter). -/
def tickChar : Char := Char.ofNat 96

/-- True when the list starts with a triple-backtick fence marker. -/
def startsTicks : List Char → Bool
  | a :: b :: c :: _ => decide (a = tickChar) && decide (b = tickChar) && decide (c = tickChar)
  | _ => false

/-- Scan for the next triple-backtick occurrence; return the suffix just after
it (the closing search of the non-greedy regex fragment in the fence pattern). -/
def afterClose : List Char → Option (List Char)
  | [] => none
  | c :: cs => if startsTicks (c :: cs) then some (cs.drop 2) else afterClose cs

/-- One step per fuel unit of `re.sub` of the DOTALL fence pattern with the
empty string: at a fence opening, delete through the earliest closing fence and
continue after it; if no closing fence exists, nothing later can match. -/
def removeCodeBlocksF : Nat → List Char → List Char
  | 0, l => l
  | _ + 1, [] => []
  | fuel + 1, c :: cs =>
    if startsTicks (c :: cs) then
      match afterClose (cs.drop 2) with
      | some rest2 => removeCodeBlocksF fuel rest2
      | none => c :: cs
    else c :: removeCodeBlocksF fuel cs

/-- `re.sub(code_block_pattern, '', content)` from line 116 of the source. -/
def removeCodeBlocks (l : List Char) : List Char := removeCodeBlocksF l.length l

/-- Characters matched by the tag class `[A-Za-z0-9_\-]`. -/
def tagChar (c : Char) : Bool := c.isAlpha || c.isDigit || c = '_' || c = '-'

/-- Maximal runs of tag characters, as produced left to right by
`findall` of the tag pattern (the optional leading marker is not captured,
so captures are exactly the maximal runs). `acc` holds the current run reversed. -/
def tagTokensAux : List Char → List Char → List String
  | [], acc => if acc.isEmpty then [] else [acc.reverse.asString]
  | c :: cs, acc =>
    if tagChar c then tagTokensAux cs (c :: acc)
    else if acc.isEmpty then tagTokensAux cs []
    else acc.reverse.asString :: tagTokensAux cs []

/-- `extract_tags_from_content` (lines 8-11): the set of captured tokens. -/
def extract_tags_from_content (content : List Char) : Finset String :=
  (tagTokensAux content []).toFinset

/-- The line separator character U+2028. -/
def lineSepChar : Char := Char.ofNat 8232

/-- The paragraph separator character U+2029. -/
def paraSepChar : Char := Char.ofNat 8233

/-- `safe_read_file`'s replacement of the unusual line terminators U+2028 and
U+2029 by a newline (line 35). -/
def fixLineSeps (s : String) : String :=
  (s.toList.map fun c => if c = lineSepChar ∨ c = paraSepChar then '\n' else c).asString

/-- Tag set of one note's raw content: read fix-up, code-fence removal, then
tag extraction (lines 111-117). -/
def contentTags (raw : String) : Finset String :=
  extract_tags_from_content (removeCodeBlocks (fixLineSeps raw).toList)

/-- Python `str.strip()`: drop leading and trailing whitespace. -/
def pyStrip (s : String) : String :=
  ((s.toList.dropWhile Char.isWhitespace).reverse.dropWhile Char.isWhitespace).reverse.asString

/-- One step per fuel unit of `findall` of the link pattern: at `[[`, the
greedy capture of non-`]` characters must be nonempty and be followed by `]]`;
on a match scanning resumes after the match, on a failure one character later. -/
def findLinksF : Nat → List Char → List String
  | 0, _ => []
  | _ + 1, [] => []
  | fuel + 1, '[' :: '[' :: rest =>
    (let cap := rest.takeWhile fun x => x ≠ ']'
     match rest.dropWhile (fun x => x ≠ ']') with
     | ']' :: ']' :: rest3 =>
       if cap.isEmpty then findLinksF fuel ('[' :: rest)
       else cap.asString :: findLinksF fuel rest3
     | _ => findLinksF fuel ('[' :: rest))
  | fuel + 1, _ :: cs => findLinksF fuel cs

/-- The stripped capture of every `[[...]]` match in a note's raw content
(lines 134, 144-146): read fix-up, regex scan, `strip` of each capture. -/
def link_targets (raw : String) : List String :=
  (findLinksF (fixLineSeps raw).toList.length (fixLineSeps raw).toList).map pyStrip

/-- One note of the corpus.  `name` is the dictionary key (file name stem),
`filename` the stored file name.  The three contents model the three
independent reads of the file (tag pass, link pass, combine pass); `none` is a
read failure.  `isFile` is the `os.path.isfile` test of the sizing pass and
`sizeResult` the `os.path.getsize` outcome (`none` = exception). -/
structure Note where
  name : String
  filename : String
  content1 : Option String
  content2 : Option String
  isFile : Bool
  sizeResult : Option Nat
  content3 : Option String
deriving DecidableEq

/-- The configuration surface handed to `main` after argument parsing.
The two fractional command-line values are modelled as rationals. -/
structure Config where
  ignoreTags : Finset String
  selectTags : Finset String
  copyTop : Option ℤ
  copyTopPercent : Option ℚ
  copyUntilSize : Option ℚ
  copyDest : Option String
  combineMd : Option String
  noCsv : Bool
  dryRun : Bool

/-- `note_passes_filter` (lines 121-127): an empty Python set is falsy, so
each constraint fires only when its set is nonempty. -/
def note_passes_filter (selectTags ignoreTags tags : Finset String) : Bool :=
  if selectTags ≠ ∅ ∧ ¬ selectTags ⊆ tags then false
  else if ignoreTags ≠ ∅ ∧ ¬ (tags ∩ ignoreTags = ∅) then false
  else true

/-- `filtered_notes` (line 129): a note is kept when its first read succeeded
(it has a tag-index entry) and it passes the tag filter. -/
def filteredNotes (cfg : Config) (corpus : List Note) : List Note :=
  corpus.filter fun n =>
    match n.content1 with
    | none => false
    | some raw => note_passes_filter cfg.selectTags cfg.ignoreTags (contentTags raw)

/-- The identities of the filtered notes (`filtered_notes.keys()`). -/
def filteredNames (cfg : Config) (corpus : List Note) : List String :=
  (filteredNotes cfg corpus).map Note.name

/-- `outgoing_links[note]` (lines 136-148): the set of stripped link targets
of the second read that name another filtered note; an unreadable second read
contributes no edges. -/
def outgoing (cfg : Config) (corpus : List Note) (n : Note) : Finset String :=
  match n.content2 with
  | none => ∅
  | some raw =>
    ((link_targets raw).filter
      (fun t => decide (t ∈ filteredNames cfg corpus ∧ t ≠ n.name))).toFinset

/-- `incoming_links_count[note]` (lines 152-156): the loop over all filtered
sources incrementing once per source whose outbound set holds the name. -/
def incoming_links_count (cfg : Config) (corpus : List Note) (name : String) : ℕ :=
  (filteredNotes cfg corpus).countP fun m => decide (name ∈ outgoing cfg corpus m)

/-- One CSV row (line 174): file name, out-degree, in-degree, total, size. -/
structure Row where
  filename : String
  outCount : ℕ
  inCount : ℕ
  totalCount : ℕ
  size : ℕ
deriving DecidableEq

/-- The sort relation of line 176 (`key=x[3], reverse=True`): descending
total-degree. -/
def rowLE (a b : Row) : Prop := b.totalCount ≤ a.totalCount

instance : DecidableRel rowLE := fun a b => Nat.decLe b.totalCount a.totalCount

instance : IsTotal Row rowLE := ⟨fun a b => Nat.le_total b.totalCount a.totalCount⟩

instance : IsTrans Row rowLE := ⟨fun _ _ _ h1 h2 => le_trans h2 h1⟩

/-- The row built for one filtered note (lines 166-174); a `getsize`
exception records size 0. -/
def mkRow (cfg : Config) (corpus : List Note) (n : Note) : Row :=
  { filename := n.filename
    outCount := (outgoing cfg corpus n).card
    inCount := incoming_links_count cfg corpus n.name
    totalCount := (outgoing cfg corpus n).card + incoming_links_count cfg corpus n.name
    size := n.sizeResult.getD 0 }

/-- `data_for_csv` before sorting (lines 158-174): one row per filtered note
that passes the `os.path.isfile` accessibility test; the others are skipped. -/
def dataForCsvUnsorted (cfg : Config) (corpus : List Note) : List Row :=
  ((filteredNotes cfg corpus).filter fun n => n.isFile).map (mkRow cfg corpus)

/-- `data_for_csv` after the stable descending sort of line 176. -/
def dataForCsv (cfg : Config) (corpus : List Note) : List Row :=
  List.insertionSort rowLE (dataForCsvUnsorted cfg corpus)

/-- `max_notes_limit` (lines 196-206): a positive top-N, intersected with the
floored percentage of the row count when the percentage is in range and its
floor is positive. -/
def maxNotesLimit (cfg : Config) (numNotes : ℕ) : Option ℕ :=
  let l1 : Option ℕ :=
    match cfg.copyTop with
    | some t => if 0 < t then some t.toNat else none
    | none => none
  match cfg.copyTopPercent with
  | none => l1
  | some p =>
    if 0 < p ∧ p ≤ 100 then
      let c : ℤ := ⌊p / 100 * (numNotes : ℚ)⌋
      if 0 < c then
        match l1 with
        | some m => some (min m c.toNat)
        | none => some c.toNat
      else l1
    else l1

/-- `max_size_bytes` (lines 208-210); `int` truncation of a positive value is
the floor. -/
def maxSizeBytes (cfg : Config) : Option ℤ :=
  match cfg.copyUntilSize with
  | some s => if 0 < s then some ⌊s * 1024 * 1024⌋ else none
  | none => none

/-- The selection loop of lines 212-225: walk the ranked rows carrying the
included count and the cumulative size; break when the count reaches the
limit, or when adding the next row would exceed the size ceiling. -/
def notesToCopyAux (maxCount : Option ℕ) (maxSize : Option ℤ) :
    List Row → ℕ → ℤ → List Row
  | [], _, _ => []
  | r :: rs, cnt, total =>
    if (match maxCount with | some m => decide (m ≤ cnt) | none => false) then []
    else if (match maxSize with
             | some m => decide (m < total + (r.size : ℤ))
             | none => false) then []
    else r :: notesToCopyAux maxCount maxSize rs (cnt + 1) (total + (r.size : ℤ))

/-- `notes_to_copy` for a ranked row list. -/
def notesToCopy (cfg : Config) (rows : List Row) : List Row :=
  notesToCopyAux (maxNotesLimit cfg rows.length) (maxSizeBytes cfg) rows 0 0

/-- The combine pass's fresh read of a selected row's file (lines 263-264). -/
def readAt (corpus : List Note) (r : Row) : Option String :=
  match corpus.find? (fun n => decide (n.filename = r.filename)) with
  | some n => n.content3.map fixLineSeps
  | none => none

/-- The combine loop of lines 261-270: write each readable content, followed
by the separator exactly when the row is not the last of the selection; an
unreadable row writes nothing (its separator included). -/
def combineLoop (corpus : List Note) : List Row → String
  | [] => ""
  | [r] => (readAt corpus r).getD ""
  | r :: rs => ((readAt corpus r).map fun c => c ++ "\n\n").getD "" ++ combineLoop corpus rs

/-- Modelled from the spec: contents "separated by exactly one blank line",
i.e. the intercalation with a double newline. -/
def sepConcat : List String → String
  | [] => ""
  | [c] => c
  | c :: cs => c ++ "\n\n" ++ sepConcat cs

/-- The observable write effects of one run of `main`. -/
structure Effects where
  csvOut : Option (List Row)
  copied : List String
  combined : Option String
  reported : List Row

/-- The effectful tail of `main` (lines 178-275): CSV unless suppressed or
dry-run; on dry-run return before any copy or combine; otherwise copy the
selection when a destination is given and combine it when requested and
nonempty. -/
def runMain (cfg : Config) (corpus : List Note) : Effects :=
  let rows := dataForCsv cfg corpus
  let csvOut : Option (List Row) := if ¬ cfg.noCsv ∧ ¬ cfg.dryRun then some rows else none
  let sel := notesToCopy cfg rows
  if cfg.dryRun then
    { csvOut := csvOut, copied := [], combined := none, reported := sel }
  else
    { csvOut := csvOut
      copied := if sel ≠ [] ∧ cfg.copyDest.isSome then sel.map Row.filename else []
      combined :=
        if cfg.combineMd.isSome ∧ sel ≠ [] then some (combineLoop corpus sel) else none
      reported := sel }

/-- Cumulative byte size of a row list, as the selection loop accumulates it. -/
def sumSizes (rows : List Row) : ℤ := (rows.map fun r => (r.size : ℤ)).sum

/-- A configuration with no tag constraints and no selection constraints. -/
def cfgNone : Config :=
  { ignoreTags := ∅, selectTags := ∅, copyTop := none, copyTopPercent := none
    copyUntilSize := none, copyDest := none, combineMd := none
    noCsv := false, dryRun := false }

/-- A note linking (with stray spacing and a repetition) to `b`, to itself
and to the unknown identity `c`. -/
def na : Note :=
  { name := "a", filename := "a.md", content1 := some "x"
    content2 := some "see [[ b ]] and [[b]] and [[a]] and [[c]]"
    isFile := true, sizeResult := some 3, content3 := some "alpha" }

/-- A note with no links whose size lookup raises. -/
def nb : Note :=
  { name := "b", filename := "b.md", content1 := some "y"
    content2 := some "no links here"
    isFile := true, sizeResult := none, content3 := some "beta" }

/-- The two-note corpus used by several witnesses. -/
def corpus2 : List Note := [na, nb]


/-- Configuration selecting the top 25 percent. -/
def cfgP25 : Config := { cfgNone with copyTopPercent := some 25 }

/-- Configuration selecting the top 50 percent. -/
def cfgP50 : Config := { cfgNone with copyTopPercent := some 50 }

/-- Configuration with a 25 MB size budget. -/
def cfgMB25 : Config := { cfgNone with copyUntilSize := some 25 }

/-- Configuration with an explicit top-N. -/
def cfgTop (n : ℤ) : Config := { cfgNone with copyTop := some n }

/-- Dry-run configuration with a destination and a combine path set. -/
def cfgDry : Config :=
  { cfgNone with dryRun := true, copyDest := some "dest", combineMd := some "all.md" }

/-- Configuration asking only for the combined artifact. -/
def cfgCombine : Config := { cfgNone with combineMd := some "all.md" }

/-- Configuration selecting notes tagged `x`. -/
def cfgS : Config := { cfgNone with selectTags := {"x"} }

/-- A readable note that fails the `os.path.isfile` accessibility test of the
sizing pass. -/
def nf : Note :=
  { name := "f", filename := "f.md", content1 := some "z"
    content2 := some "z", isFile := false, sizeResult := none, content3 := none }

/-- A corpus whose second note is dropped by the accessibility test. -/
def corpusNF : List Note := [na, nf]

/-- Ranked rows of 10 MB, 20 MB and 5 MB. -/
def mbRow1 : Row := { filename := "r1.md", outCount := 0, inCount := 0, totalCount := 3, size := 10485760 }

/-- Second ranked row (20 MB). -/
def mbRow2 : Row := { filename := "r2.md", outCount := 0, inCount := 0, totalCount := 2, size := 20971520 }

/-- Third ranked row (5 MB). -/
def mbRow3 : Row := { filename := "r3.md", outCount := 0, inCount := 0, totalCount := 1, size := 5242880 }

/-- The ranked list of the size-budget example. -/
def mbRows : List Row := [mbRow1, mbRow2, mbRow3]

/-- Two small ranked rows for the top-N examples. -/
def rowA : Row := { filename := "a.md", outCount := 1, inCount := 0, totalCount := 1, size := 3 }

/-- Second small ranked row. -/
def rowB : Row := { filename := "b.md", outCount := 0, inCount := 1, totalCount := 1, size := 0 }

/-- The two-row ranked list of the top-N examples. -/
def rows2 : List Row := [rowA, rowB]

theorem maxNotesLimit_P25_ten : maxNotesLimit cfgP25 10 = some 2 := by
  have h2 : (⌊(25:ℚ)/100 * (10:ℚ)⌋ : ℤ) = 2 := by
    rw [Int.floor_eq_iff]
    norm_num
  simp only [maxNotesLimit, cfgP25, cfgNone]
  norm_num [h2]
  rfl
theorem maxNotesLimit_P50_one : maxNotesLimit cfgP50 1 = none := by
  have h2 : (⌊(50:ℚ)/100 * (1:ℚ)⌋ : ℤ) = 0 := by
    rw [Int.floor_eq_iff]
    norm_num
  simp only [maxNotesLimit, cfgP50, cfgNone]
  norm_num [h2]
theorem maxNotesLimit_P50_two : maxNotesLimit cfgP50 2 = some 1 := by
  have h2 : (⌊(50:ℚ)/100 * (2:ℚ)⌋ : ℤ) = 1 := by
    rw [Int.floor_eq_iff]
    norm_num
  simp only [maxNotesLimit, cfgP50, cfgNone]
  norm_num [h2]
theorem maxSizeBytes_MB25 : maxSizeBytes cfgMB25 = some 26214400 := by
  have h2 : (⌊(25:ℚ) * 1024 * 1024⌋ : ℤ) = 26214400 := by
    rw [show ((25:ℚ) * 1024 * 1024) = ((26214400:ℤ):ℚ) by norm_num, Int.floor_intCast]
  simp only [maxSizeBytes, cfgMB25, cfgNone]
  norm_num [h2]
theorem maxNotesLimit_MB25 : maxNotesLimit cfgMB25 mbRows.length = none := by
  simp [maxNotesLimit, cfgMB25, cfgNone]

theorem notesToCopy_MB25 : notesToCopy cfgMB25 mbRows = [mbRow1] := by
  rw [notesToCopy, maxSizeBytes_MB25, maxNotesLimit_MB25]
  decide

theorem note_passes_filter_iff (s i t : Finset String) :
    note_passes_filter s i t = true ↔ (s ≠ ∅ → s ⊆ t) ∧ (i ≠ ∅ → t ∩ i = ∅) := by
  unfold note_passes_filter
  split_ifs with h1 h2
  · simp only [Bool.false_eq_true, false_iff]
    tauto
  · simp only [Bool.false_eq_true, false_iff]
    tauto
  · simp only [true_iff]
    tauto

theorem notesToCopyAux_no_limits (rows : List Row) :
    ∀ (cnt : ℕ) (total : ℤ), notesToCopyAux none none rows cnt total = rows := by
  induction rows with
  | nil => intro _ _; rfl
  | cons r rs ih => intro cnt total; simp [notesToCopyAux, ih]

theorem notesToCopyAux_count_only (m : ℕ) (rows : List Row) :
    ∀ (cnt : ℕ) (total : ℤ),
      notesToCopyAux (some m) none rows cnt total = rows.take (m - cnt) := by
  induction rows with
  | nil => intro _ _; simp [notesToCopyAux]
  | cons r rs ih =>
    intro cnt total
    by_cases h : m ≤ cnt
    · have h0 : m - cnt = 0 := by omega
      simp [notesToCopyAux, h, h0]
    · have h1 : m - cnt = (m - (cnt + 1)) + 1 := by omega
      simp [notesToCopyAux, h, ih, h1]

theorem notesToCopyAux_sublist (mc : Option ℕ) (ms : Option ℤ) (rows : List Row) :
    ∀ (cnt : ℕ) (total : ℤ), List.Sublist (notesToCopyAux mc ms rows cnt total) rows := by
  induction rows with
  | nil => intro _ _; simp [notesToCopyAux]
  | cons r rs ih =>
    intro cnt total
    simp only [notesToCopyAux]
    split
    · exact List.nil_sublist _
    · split
      · exact List.nil_sublist _
      · exact (ih _ _).cons₂ r

theorem combineLoop_eq_sepConcat (corpus : List Note) :
    ∀ rows : List Row, (∀ r ∈ rows, (readAt corpus r).isSome) →
      combineLoop corpus rows = sepConcat (rows.map fun r => (readAt corpus r).getD "") := by
  intro rows
  induction rows with
  | nil => intro _; rfl
  | cons r rs ih =>
    intro h
    cases rs with
    | nil => simp [combineLoop, sepConcat]
    | cons r2 rs2 =>
      have hr : (readAt corpus r).isSome := h r (by simp)
      obtain ⟨c, hc⟩ := Option.isSome_iff_exists.mp hr
      have ih2 := ih (fun x hx => h x (by simp [hx]))
      simp only [combineLoop, hc, Option.map_some, Option.getD_some, ih2, List.map_cons,
        sepConcat]
      simp [String.append_assoc]

theorem sumSizes_take_succ_cons (r : Row) (rs : List Row) (j : ℕ) :
    sumSizes ((r :: rs).take (j + 1)) = (r.size : ℤ) + sumSizes (rs.take j) := by
  simp [sumSizes, List.take_succ_cons]

theorem notesToCopyAux_size_spec (M : ℤ) (rows : List Row) :
    ∀ (cnt : ℕ) (total : ℤ),
      (∃ rest, notesToCopyAux none (some M) rows cnt total ++ rest = rows)
    ∧ (∀ k : ℕ, 1 ≤ k → k ≤ (notesToCopyAux none (some M) rows cnt total).length →
        total + sumSizes (rows.take k) ≤ M)
    ∧ ((notesToCopyAux none (some M) rows cnt total).length < rows.length →
        M < total + sumSizes (rows.take
          ((notesToCopyAux none (some M) rows cnt total).length + 1))) := by
  induction rows with
  | nil =>
    intro cnt total
    refine ⟨⟨[], rfl⟩, ?_, ?_⟩
    · intro k hk1 hk2
      simp [notesToCopyAux] at hk2
      omega
    · intro h
      simp [notesToCopyAux] at h
  | cons r rs ih =>
    intro cnt total
    by_cases h : M < total + (r.size : ℤ)
    · have he : notesToCopyAux none (some M) (r :: rs) cnt total = [] := by
        simp [notesToCopyAux, h]
      refine ⟨⟨r :: rs, by rw [he]; rfl⟩, ?_, ?_⟩
      · intro k hk1 hk2
        rw [he] at hk2
        simp at hk2
        omega
      · intro _
        rw [he]
        simpa [sumSizes] using h
    · have he : notesToCopyAux none (some M) (r :: rs) cnt total
          = r :: notesToCopyAux none (some M) rs (cnt + 1) (total + (r.size : ℤ)) := by
        simp [notesToCopyAux, h]
      obtain ⟨⟨rest, hrest⟩, h2, h3⟩ := ih (cnt + 1) (total + (r.size : ℤ))
      refine ⟨⟨rest, by rw [he]; simp [hrest]⟩, ?_, ?_⟩
      · intro k hk1 hk2
        rw [he, List.length_cons] at hk2
        cases k with
        | zero => omega
        | succ j =>
          rw [sumSizes_take_succ_cons]
          cases Nat.eq_zero_or_pos j with
          | inl hj0 =>
            subst hj0
            simp only [List.take_zero, sumSizes, List.map_nil, List.sum_nil, add_zero]
            omega
          | inr hj1 =>
            have := h2 j hj1 (by omega)
            omega
      · intro hlen
        rw [he] at hlen ⊢
        simp only [List.length_cons] at hlen ⊢
        have hlen' : (notesToCopyAux none (some M) rs (cnt + 1)
            (total + (r.size : ℤ))).length < rs.length := by omega
        have hfin := h3 hlen'
        rw [sumSizes_take_succ_cons]
        omega

/-- C6: a note is in the filtered set iff its content was readable during tag
extraction (it has a tag-index entry), its tag set contains every select tag
whenever the select set is nonempty, and its tag set is disjoint from the
ignore set whenever the ignore set is nonempty. -/
theorem tag_filter_characterization (cfg : Config) (corpus : List Note) (n : Note) :
    n ∈ filteredNotes cfg corpus ↔
      n ∈ corpus ∧ ∃ raw, n.content1 = some raw ∧
        (cfg.selectTags ≠ ∅ → cfg.selectTags ⊆ contentTags raw) ∧
        (cfg.ignoreTags ≠ ∅ → contentTags raw ∩ cfg.ignoreTags = ∅) := by
  unfold filteredNotes
  rw [List.mem_filter]
  refine and_congr_right fun _ => ?_
  cases hc : n.content1 with
  | none => simp
  | some raw => simp [note_passes_filter_iff]

/-- C6 witness: the note tagged `x` is kept under select-tags `x`. -/
theorem tag_filter_characterization_witness : na ∈ filteredNotes cfgS [na] :=
  (tag_filter_characterization cfgS [na] na).mpr
    ⟨by decide, "x", rfl, fun _ => by decide, fun _ => by decide⟩

/-- C8: with the dry-run flag set, no CSV is written, no file is copied and no
combined file is written, while the selection is still computed and reported. -/
theorem dry_run_no_effects (cfg : Config) (corpus : List Note) (h : cfg.dryRun = true) :
    (runMain cfg corpus).csvOut = none ∧ (runMain cfg corpus).copied = []
  ∧ (runMain cfg corpus).combined = none
  ∧ (runMain cfg corpus).reported = notesToCopy cfg (dataForCsv cfg corpus) := by
  simp [runMain, h]

/-- C8 witness at a dry-run configuration with destination and combine path set. -/
theorem dry_run_no_effects_witness :
    cfgDry.dryRun = true ∧ (runMain cfgDry corpus2).csvOut = none ∧
    (runMain cfgDry corpus2).copied = [] ∧ (runMain cfgDry corpus2).combined = none ∧
    (runMain cfgDry corpus2).reported = notesToCopy cfgDry (dataForCsv cfgDry corpus2) := by
  have h := dry_run_no_effects cfgDry corpus2 rfl
  exact ⟨rfl, h.1, h.2.1, h.2.2.1, h.2.2.2⟩

/-- C10: a nonpositive top-N imposes no count limit (top-N 0 selects every
ranked note rather than none), an out-of-range top-percent is ignored
entirely, and a nonpositive size budget imposes no ceiling. -/
theorem nonpositive_limits_disabled (cfg : Config) (numNotes : ℕ) (rows : List Row) :
    (∀ t : ℤ, cfg.copyTop = some t → t ≤ 0 →
        maxNotesLimit cfg numNotes = maxNotesLimit { cfg with copyTop := none } numNotes)
  ∧ (∀ p : ℚ, cfg.copyTopPercent = some p → (p ≤ 0 ∨ 100 < p) →
        maxNotesLimit cfg numNotes = maxNotesLimit { cfg with copyTopPercent := none } numNotes)
  ∧ (∀ s : ℚ, cfg.copyUntilSize = some s → s ≤ 0 → maxSizeBytes cfg = none)
  ∧ (cfg.copyTop = some 0 → cfg.copyTopPercent = none → cfg.copyUntilSize = none →
      notesToCopy cfg rows = rows) := by
  refine ⟨?_, ?_, ?_, ?_⟩
  · intro t ht hle
    have hnt : ¬ (0:ℤ) < t := by omega
    simp [maxNotesLimit, ht, hnt]
  · intro p hp hout
    have hnp : ¬ (0 < p ∧ p ≤ 100) := by
      rcases hout with h | h
      · exact fun hc => absurd hc.1 (not_lt.mpr h)
      · exact fun hc => absurd hc.2 (not_le.mpr h)
    simp [maxNotesLimit, hp, hnp]
  · intro s hs hle
    have hns : ¬ (0:ℚ) < s := not_lt.mpr hle
    simp [maxSizeBytes, hs, hns]
  · intro h0 hp hs
    have hl : maxNotesLimit cfg rows.length = none := by simp [maxNotesLimit, h0, hp]
    have hms : maxSizeBytes cfg = none := by simp [maxSizeBytes, hs]
    rw [notesToCopy, hl, hms, notesToCopyAux_no_limits]

/-- C10 witness: top-N 0 leaves both ranked rows selected. -/
theorem nonpositive_limits_disabled_witness :
    (cfgTop 0).copyTop = some 0 ∧ notesToCopy (cfgTop 0) rows2 = rows2 :=
  ⟨rfl, (nonpositive_limits_disabled (cfgTop 0) 0 rows2).2.2.2 rfl rfl rfl⟩

/-- C7 counterexample: top-N 0 means no count limit, so raising top-N from 0
to 1 removes the second note from the selection. -/
theorem topn_monotonicity_fails_at_zero_cx :
    (0:ℤ) ≤ 1 ∧ rowB ∈ notesToCopy (cfgTop 0) rows2 ∧
    rowB ∉ notesToCopy (cfgTop 1) rows2 := by decide

/-- C7 (amended to positive top-N values): for 0 < N1 ≤ N2 and no other
constraints, the selection under top-N N1 is a prefix of the one under N2. -/
theorem topn_monotone_positive (rows : List Row) (n1 n2 : ℤ)
    (h1 : 0 < n1) (h12 : n1 ≤ n2) :
    notesToCopy (cfgTop n1) rows <+: notesToCopy (cfgTop n2) rows := by
  have key : ∀ n : ℤ, 0 < n → notesToCopy (cfgTop n) rows = rows.take n.toNat := by
    intro n hn
    have hl : maxNotesLimit (cfgTop n) rows.length = some n.toNat := by
      simp [maxNotesLimit, cfgTop, cfgNone, hn]
    have hms : maxSizeBytes (cfgTop n) = none := by simp [maxSizeBytes, cfgTop, cfgNone]
    rw [notesToCopy, hl, hms, notesToCopyAux_count_only]
    simp
  rw [key n1 h1, key n2 (lt_of_lt_of_le h1 h12)]
  have hle : n1.toNat ≤ n2.toNat := Int.toNat_le_toNat h12
  have heq : rows.take n1.toNat = (rows.take n2.toNat).take n1.toNat := by
    rw [List.take_take, min_eq_left hle]
  rw [heq]
  exact List.take_prefix _ _

/-- C7 witness at N1 = 1, N2 = 2. -/
theorem topn_monotone_positive_witness :
    (0:ℤ) < 1 ∧ (1:ℤ) ≤ 2 ∧
    notesToCopy (cfgTop 1) rows2 <+: notesToCopy (cfgTop 2) rows2 :=
  ⟨by decide, by decide, topn_monotone_positive rows2 1 2 (by decide) (by decide)⟩

/-- C1: provided note identities are distinct (they are keys of a Python
dict), the computed in-degree of a filtered note equals the number of distinct
filtered notes whose outbound edge set contains its identity. -/
theorem indegree_counts_distinct_sources (cfg : Config) (corpus : List Note) (n : Note)
    (hnd : (corpus.map Note.name).Nodup) (_hn : n ∈ filteredNotes cfg corpus) :
    incoming_links_count cfg corpus n.name =
      ((filteredNotes cfg corpus).filter
        (fun m => decide (n.name ∈ outgoing cfg corpus m))).toFinset.card := by
  have hnodup : (filteredNotes cfg corpus).Nodup :=
    (List.Nodup.of_map Note.name hnd).filter _
  have hfil := hnodup.filter fun m => decide (n.name ∈ outgoing cfg corpus m)
  rw [incoming_links_count, List.countP_eq_length_filter,
    List.toFinset_card_of_nodup hfil]

/-- C1 witness on the two-note corpus where `a` links to `b`. -/
theorem indegree_counts_distinct_sources_witness :
    (corpus2.map Note.name).Nodup ∧ nb ∈ filteredNotes cfgNone corpus2 ∧
    incoming_links_count cfgNone corpus2 nb.name =
      ((filteredNotes cfgNone corpus2).filter
        (fun m => decide (nb.name ∈ outgoing cfgNone corpus2 m))).toFinset.card :=
  ⟨by decide, by decide,
    indegree_counts_distinct_sources cfgNone corpus2 nb (by decide) (by decide)⟩

/-- C2: a filtered note's outbound set contains T iff its second read
succeeded and has a link capture stripping to T, T names a filtered note, and
T is not the note's own identity (sets make repeated links count once). -/
theorem outbound_membership_characterization (cfg : Config) (corpus : List Note)
    (n : Note) (T : String) (_hn : n ∈ filteredNotes cfg corpus) :
    T ∈ outgoing cfg corpus n ↔
      ∃ raw, n.content2 = some raw ∧ T ∈ link_targets raw ∧
        T ∈ filteredNames cfg corpus ∧ T ≠ n.name := by
  unfold outgoing
  cases hc : n.content2 with
  | none => simp
  | some raw =>
    simp [List.mem_filter]

/-- C2 witness: the stray-spaced link `[[ b ]]` in note `a` produces the
outbound edge to `b`. -/
theorem outbound_membership_characterization_witness :
    na ∈ filteredNotes cfgNone corpus2 ∧ "b" ∈ outgoing cfgNone corpus2 na :=
  ⟨by decide,
    (outbound_membership_characterization cfgNone corpus2 na "b" (by decide)).mpr
      ⟨"see [[ b ]] and [[b]] and [[a]] and [[c]]", rfl, by decide, by decide, by decide⟩⟩

/-- C5 counterexample: a filtered note that fails the accessibility test gets
no metrics row at all, though the claim promises one row per filtered note. -/
theorem metrics_row_dropped_when_not_file_cx :
    (filteredNotes cfgNone [nf]).length = 1 ∧ dataForCsv cfgNone [nf] = [] := by decide

/-- C5 (amended to notes passing the accessibility test): the ranked rows are
exactly one row per filtered note passing `os.path.isfile`, in descending
total-degree order, and a note whose `getsize` raises keeps its row with
size 0. -/
theorem metrics_rows_accessible_notes (cfg : Config) (corpus : List Note) :
    List.Perm (dataForCsv cfg corpus)
      (((filteredNotes cfg corpus).filter fun n => n.isFile).map (mkRow cfg corpus))
  ∧ List.Sorted rowLE (dataForCsv cfg corpus)
  ∧ (∀ n ∈ filteredNotes cfg corpus, n.isFile = true →
      mkRow cfg corpus n ∈ dataForCsv cfg corpus ∧
        (n.sizeResult = none → (mkRow cfg corpus n).size = 0)) := by
  refine ⟨?_, ?_, ?_⟩
  · exact List.perm_insertionSort rowLE (dataForCsvUnsorted cfg corpus)
  · exact List.sorted_insertionSort rowLE (dataForCsvUnsorted cfg corpus)
  · intro n hn hfile
    refine ⟨?_, fun hsz => by simp [mkRow, hsz]⟩
    exact (List.perm_insertionSort rowLE (dataForCsvUnsorted cfg corpus)).mem_iff.mpr
      (List.mem_map.mpr ⟨n, List.mem_filter.mpr ⟨hn, by simp [hfile]⟩, rfl⟩)

/-- C5 witness: the note whose size lookup raises is recorded with size 0 and
still appears among the ranked rows. -/
theorem metrics_rows_accessible_notes_witness :
    nb ∈ filteredNotes cfgNone corpus2 ∧ nb.isFile = true ∧ nb.sizeResult = none ∧
    mkRow cfgNone corpus2 nb ∈ dataForCsv cfgNone corpus2 ∧
    (mkRow cfgNone corpus2 nb).size = 0 := by
  have h := (metrics_rows_accessible_notes cfgNone corpus2).2.2 nb (by decide) rfl
  exact ⟨by decide, rfl, rfl, h.1, h.2 rfl⟩

/-- C4 counterexample: the percentage population is the ranked-row count, not
the filtered note count.  With two filtered notes but one ranked row (the
other fails the accessibility test) and top-percent 50, the code derives no
limit, while floor of 50 percent of the filtered count would be the positive
limit 1. -/
theorem percent_population_is_row_count_cx :
    maxNotesLimit cfgP50 ((dataForCsv cfgP50 corpusNF).length) = none ∧
    maxNotesLimit cfgP50 ((filteredNotes cfgP50 corpusNF).length) = some 1 := by
  have hd : (dataForCsv cfgP50 corpusNF).length = 1 := by decide
  have hf : (filteredNotes cfgP50 corpusNF).length = 2 := by decide
  rw [hd, hf]
  exact ⟨maxNotesLimit_P50_one, maxNotesLimit_P50_two⟩

/-- C4 (amended to the ranked-row population): with top-percent in range, the
derived count is the floor of percent applied to the ranked-row count, used
only when positive and intersected with a positive explicit top-N; for 10 rows
and top-percent 25 the effective limit is 2. -/
theorem percent_limit_from_row_count (cfg : Config) (numNotes : ℕ) (p : ℚ)
    (hp : cfg.copyTopPercent = some p) (h0 : 0 < p) (h100 : p ≤ 100) :
    (cfg.copyTop = none → 0 < ⌊p / 100 * (numNotes : ℚ)⌋ →
        maxNotesLimit cfg numNotes = some (⌊p / 100 * (numNotes : ℚ)⌋).toNat)
  ∧ (∀ t : ℤ, cfg.copyTop = some t → 0 < t → 0 < ⌊p / 100 * (numNotes : ℚ)⌋ →
        maxNotesLimit cfg numNotes =
          some (min t.toNat (⌊p / 100 * (numNotes : ℚ)⌋).toNat))
  ∧ (⌊p / 100 * (numNotes : ℚ)⌋ ≤ 0 →
        maxNotesLimit cfg numNotes = maxNotesLimit { cfg with copyTopPercent := none } numNotes)
  ∧ maxNotesLimit cfgP25 10 = some 2 := by
  refine ⟨?_, ?_, ?_, maxNotesLimit_P25_ten⟩
  · intro hct hc
    simp [maxNotesLimit, hp, hct, h0, h100, hc]
  · intro t hct htp hc
    simp [maxNotesLimit, hp, hct, htp, h0, h100, hc]
  · intro hc
    have hnc : ¬ (0:ℤ) < ⌊p / 100 * (numNotes : ℚ)⌋ := not_lt.mpr hc
    simp [maxNotesLimit, hp, h0, h100, hnc]

/-- C4 witness at top-percent 25 with 10 ranked rows. -/
theorem percent_limit_from_row_count_witness :
    cfgP25.copyTopPercent = some 25 ∧ (0:ℚ) < 25 ∧ (25:ℚ) ≤ 100 ∧
    maxNotesLimit cfgP25 10 = some (⌊(25:ℚ) / 100 * ((10:ℕ) : ℚ)⌋).toNat := by
  have h2 : (⌊(25:ℚ) / 100 * ((10:ℕ) : ℚ)⌋ : ℤ) = 2 := by
    push_cast
    rw [Int.floor_eq_iff]
    norm_num
  have hpos : (0:ℤ) < ⌊(25:ℚ) / 100 * ((10:ℕ) : ℚ)⌋ := by
    rw [h2]
    decide
  exact ⟨rfl, by norm_num, by norm_num,
    (percent_limit_from_row_count cfgP25 10 25 rfl (by norm_num) (by norm_num)).1 rfl hpos⟩

/-- C3: with a size ceiling and no count limit the selection is a prefix of
the ranked list, every included prefix keeps the cumulative size within the
ceiling, and when some row is excluded the first excluded row would push the
cumulative size strictly above the ceiling, so it and all later rows are
dropped; for ranked sizes 10, 20, 5 MB and a 25 MB budget exactly the first
note is selected though the third alone would fit. -/
theorem size_budget_stops_at_first_overflow (cfg : Config) (rows : List Row) (M : ℤ)
    (hnc : maxNotesLimit cfg rows.length = none) (hms : maxSizeBytes cfg = some M) :
    (notesToCopy cfg rows <+: rows)
  ∧ (∀ k : ℕ, 1 ≤ k → k ≤ (notesToCopy cfg rows).length → sumSizes (rows.take k) ≤ M)
  ∧ ((notesToCopy cfg rows).length < rows.length →
      M < sumSizes (rows.take ((notesToCopy cfg rows).length + 1)))
  ∧ notesToCopy cfgMB25 mbRows = [mbRow1] := by
  have hrw : notesToCopy cfg rows = notesToCopyAux none (some M) rows 0 0 := by
    rw [notesToCopy, hnc, hms]
  obtain ⟨⟨rest, hrest⟩, h2, h3⟩ := notesToCopyAux_size_spec M rows 0 0
  refine ⟨?_, ?_, ?_, notesToCopy_MB25⟩
  · rw [hrw]
    exact ⟨rest, hrest⟩
  · intro k hk1 hk2
    rw [hrw] at hk2
    have := h2 k hk1 hk2
    omega
  · intro hlen
    rw [hrw] at hlen ⊢
    have := h3 hlen
    omega

/-- C3 witness at the 25 MB budget over the 10, 20, 5 MB ranked rows. -/
theorem size_budget_stops_at_first_overflow_witness :
    maxNotesLimit cfgMB25 mbRows.length = none ∧ maxSizeBytes cfgMB25 = some 26214400 ∧
    (notesToCopy cfgMB25 mbRows <+: mbRows) ∧ notesToCopy cfgMB25 mbRows = [mbRow1] := by
  have h := size_budget_stops_at_first_overflow cfgMB25 mbRows 26214400
    maxNotesLimit_MB25 maxSizeBytes_MB25
  exact ⟨maxNotesLimit_MB25, maxSizeBytes_MB25, h.1, h.2.2.2⟩

/-- C9: when a combine path is set, the run is not dry and every selected row
is readable at combine time, the combined artifact is the selected contents in
ranked (descending total-degree) order, separated by exactly one blank line. -/
theorem combine_concatenates_with_blank_lines (cfg : Config) (corpus : List Note)
    (path : String) (hcm : cfg.combineMd = some path) (hdry : cfg.dryRun = false)
    (hne : notesToCopy cfg (dataForCsv cfg corpus) ≠ [])
    (hread : ∀ r ∈ notesToCopy cfg (dataForCsv cfg corpus), (readAt corpus r).isSome) :
    (runMain cfg corpus).combined =
      some (sepConcat ((notesToCopy cfg (dataForCsv cfg corpus)).map
        fun r => (readAt corpus r).getD ""))
  ∧ List.Sorted rowLE (notesToCopy cfg (dataForCsv cfg corpus)) := by
  constructor
  · have hcl := combineLoop_eq_sepConcat corpus _ hread
    simp [runMain, hdry, hcm, hne, hcl]
  · have hsub : List.Sublist (notesToCopy cfg (dataForCsv cfg corpus))
        (dataForCsv cfg corpus) := by
      rw [notesToCopy]
      exact notesToCopyAux_sublist _ _ _ 0 0
    exact List.Pairwise.sublist hsub
      (List.sorted_insertionSort rowLE (dataForCsvUnsorted cfg corpus))

/-- C9 witness: both notes of the two-note corpus are selected and combined
with one blank line between their contents. -/
theorem combine_concatenates_with_blank_lines_witness :
    cfgCombine.combineMd = some "all.md" ∧
    (runMain cfgCombine corpus2).combined =
      some (sepConcat ((notesToCopy cfgCombine (dataForCsv cfgCombine corpus2)).map
        fun r => (readAt corpus2 r).getD "")) :=
  ⟨rfl, (combine_concatenates_with_blank_lines cfgCombine corpus2 "all.md" rfl rfl
    (by decide) (by decide)).1⟩
